import Mathlib

/-!
Verification of the oric image-recognition pipeline.

The development shallowly embeds the numeric core of the repository:

* `src/app/recognition/page.tsx` — `convertCoordinates`, the detection
  bounding-box mapper;
* `src/utils/image-processing.ts` — the pixel filter bank
  (`convertToGrayscale`, `applyMedianFilter`, `applySharpeningFilter`,
  `applyAdaptiveContrast`, `applyEnhancedGrayscale`, `applyImageFilters`)
  and the `preprocessImage` resize/validate/re-encode pipeline;
* `src/utils/ml-models.ts` — the module-level in-flight flag consulted by
  `detectObjects` and ignored by `classifyImage`.

JavaScript numbers are modelled as exact rationals (`ℚ`); pixel buffers
(`Uint8ClampedArray`) as total functions from flat index to stored byte,
with stores going through an explicit clamp-and-round-half-to-even step,
which is the semantics of assigning to a `Uint8ClampedArray` element.
JavaScript loops become folds over the exact index lists the loops visit.
-/

namespace Oric

/-! ## Pixel buffers and JavaScript numeric primitives -/

/-- A pixel buffer: flat index to byte value, as a total function. -/
abbrev Img := Nat → Nat

/-- Write one slot of a buffer. -/
def upd (f : Img) (i v : Nat) : Img := fun j => if j = i then v else f j

/-- Rounding used when a number is stored into a `Uint8ClampedArray` slot:
round to the nearest integer, ties to even (ECMAScript ToUint8Clamp). -/
def roundHalfEven (q : ℚ) : ℤ :=
  if q - ⌊q⌋ < 1/2 then ⌊q⌋
  else if 1/2 < q - ⌊q⌋ then ⌊q⌋ + 1
  else if ⌊q⌋ % 2 = 0 then ⌊q⌋ else ⌊q⌋ + 1

/-- The clamp `Math.max(0, Math.min(255, q))` the filters apply before a store. -/
def clamp255 (q : ℚ) : ℚ := max 0 (min 255 q)

/-- Store a computed value into a `Uint8ClampedArray` slot: the source clamps
with `Math.max`/`Math.min` and the array then rounds half to even. -/
def toByte (q : ℚ) : Nat := (roundHalfEven (clamp255 q)).toNat

/-- JavaScript `Math.round`: round half toward positive infinity. -/
def jsRound (q : ℚ) : ℤ := ⌊q + 1/2⌋

/-- JavaScript `Math.round` on a non-negative quantity, as a natural. -/
def jsRoundN (q : ℚ) : Nat := (jsRound q).toNat

/-- JavaScript `a || b` on numbers, for non-negative `a`: `0` is falsy and is
replaced by `b`; every other value is kept. -/
def jsOr (a b : ℚ) : ℚ := if a = 0 then b else a

/-- JavaScript `Math.min(limit, 1 / contrast)` for `contrast ≥ 0`: in the
source `1/0` is `Infinity` and `Math.min(limit, Infinity) = limit`; `ℚ` has
no infinity, so that case is written out. -/
def jsScale (limit contrast : ℚ) : ℚ :=
  if contrast = 0 then limit else min limit (1 / contrast)

/-- JavaScript `String.prototype.includes` on character lists: some drop of
the haystack starts with the needle. -/
def listHasSub (needle hay : List Char) : Bool :=
  (List.range (hay.length + 1)).any fun i =>
    ((hay.drop i).take needle.length) == needle

/-- JavaScript `s.includes(pat)`. -/
def strIncludes (s pat : String) : Bool := listHasSub pat.toList s.toList

/-! ## Coordinate mapper (`src/app/recognition/page.tsx`) -/

/-- Destination canvas dimensions, as passed to `convertCoordinates`. -/
structure CanvasDimensions where
  width : ℚ
  height : ℚ

/-- Scale/offset parameters recorded while drawing the source image. -/
structure ScalingParameters where
  scaledWidth : ℚ
  scaledHeight : ℚ
  offsetX : ℚ
  offsetY : ℚ

/-- A mapped bounding box. -/
structure Coordinates where
  x : ℚ
  y : ℚ
  width : ℚ
  height : ℚ
deriving DecidableEq

/-- One detection; `bbox` is the four-number box in the producing model's
convention (destructured positionally by the source). -/
structure Recognition where
  bbox : ℚ × ℚ × ℚ × ℚ

/-- Embedding of `convertCoordinates` (page.tsx lines 198–231): corner-pair
mapping for model ids containing `detr` or `yolos`, origin+extent mapping
with letterbox offsets for every other model. The source applies no clamp. -/
def convertCoordinates (recognition : Recognition) (modelId : String)
    (canvas : CanvasDimensions) (scaling : ScalingParameters) : Coordinates :=
  if strIncludes modelId "detr" || strIncludes modelId "yolos" then
    let xmin := recognition.bbox.1
    let ymin := recognition.bbox.2.1
    let xmax := recognition.bbox.2.2.1
    let ymax := recognition.bbox.2.2.2
    let scaleX := canvas.width / scaling.scaledWidth
    let scaleY := canvas.height / scaling.scaledHeight
    { x := xmin * scaleX
      y := ymin * scaleY
      width := (xmax - xmin) * scaleX
      height := (ymax - ymin) * scaleY }
  else
    let x := recognition.bbox.1
    let y := recognition.bbox.2.1
    let width := recognition.bbox.2.2.1
    let height := recognition.bbox.2.2.2
    let scaleX := canvas.width / scaling.scaledWidth
    let scaleY := canvas.height / scaling.scaledHeight
    { x := (x - scaling.offsetX) * scaleX
      y := (y - scaling.offsetY) * scaleY
      width := width * scaleX
      height := height * scaleY }

/-! ## Pixel filter bank (`src/utils/image-processing.ts`) -/

/-- Embedding of `convertToGrayscale`: the grayscale buffer holds, at pixel
`p`, `Math.round` of the fixed-weight luminance of the RGBA quad starting at
flat index `4*p`. The rounded value already lies in `[0,255]`, so the
clamped-array store keeps it as is. -/
def convertToGrayscale (data : Img) : Img := fun p =>
  jsRoundN (0.299 * data (4 * p) + 0.587 * data (4 * p + 1) + 0.114 * data (4 * p + 2))

/-- Insertion into a sorted list, ascending. -/
def sortedInsert (v : Nat) : List Nat → List Nat
  | [] => [v]
  | w :: ws => if v ≤ w then v :: w :: ws else w :: sortedInsert v ws

/-- Ascending sort, the effect of `values.sort((a, b) => a - b)`. -/
def sortAsc (l : List Nat) : List Nat := l.foldr sortedInsert []

/-- Neighborhood values the median filter collects at interior pixel
`(x, y)`: offsets `dy, dx` range over `-fr .. fr`, encoded as
`0 .. 2*fr` shifted by `fr` (the pixel is at least `fr` from each edge,
so the subtractions are exact). -/
def medianValues (g : Img) (w fr x y : Nat) : List Nat :=
  (List.range (2 * fr + 1)).flatMap fun dy =>
    (List.range (2 * fr + 1)).map fun dx =>
      g ((y + dy - fr) * w + (x + dx - fr))

/-- The value the median filter writes at interior pixel `(x, y)`: sort the
neighborhood and take the middle element. -/
def medianAt (g : Img) (w fr x y : Nat) : Nat :=
  let values := sortAsc (medianValues g w fr x y)
  values.getD (values.length / 2) 0

/-- Interior pixels `(x, y)` the filter loops visit, row-major as in the
source: `y` from `fr` to `h - fr - 1` outer, `x` from `fr` to `w - fr - 1`
inner. -/
def interiorPixels (w h fr : Nat) : List (Nat × Nat) :=
  (List.range' fr (h - fr - fr)).flatMap fun y =>
    (List.range' fr (w - fr - fr)).map fun x => (x, y)

/-- Embedding of `applyMedianFilter` (lines 43–68): `filterRadius` is forced
to 1 in detection mode; the result starts as a copy of the input and only
interior pixels are overwritten, each with the median of its neighborhood
read from the untouched copy `temp` of the input. -/
def applyMedianFilter (grayscale : Img) (w h radius : Nat) (isDetection : Bool) : Img :=
  let filterRadius := if isDetection then 1 else radius
  (interiorPixels w h filterRadius).foldl
    (fun result p => upd result (p.2 * w + p.1) (medianAt grayscale w filterRadius p.1 p.2))
    grayscale

/-- The 3×3 sharpening kernel: gentler weights in detection mode. -/
def sharpenKernel (isDetection : Bool) : List (List ℚ) :=
  if isDetection then
    [[0, -0.5, 0], [-0.5, 3, -0.5], [0, -0.5, 0]]
  else
    [[0, -1, 0], [-1, 5, -1], [0, -1, 0]]

/-- Convolution sum the sharpening filter computes at interior pixel
`(x, y)`: kernel indices `ky, kx` range over `0 .. 2`, the tap reads
`temp[(y + ky - 1) * w + (x + kx - 1)]` (exact, the pixel being at least 1
from each edge). -/
def sharpenSumAt (g : Img) (w x y : Nat) (kernel : List (List ℚ)) : ℚ :=
  (List.range 3).foldl (fun acc ky =>
    (List.range 3).foldl (fun acc kx =>
      acc + (g ((y + ky - 1) * w + (x + kx - 1)) : ℚ) * ((kernel.getD ky []).getD kx 0))
      acc)
    0

/-- Embedding of `applySharpeningFilter` (lines 70–102): border width 1; each
interior pixel gets the clamped convolution sum, reads coming from the
untouched copy of the input. -/
def applySharpeningFilter (grayscale : Img) (w h : Nat) (isDetection : Bool) : Img :=
  let kernel := sharpenKernel isDetection
  (interiorPixels w h 1).foldl
    (fun result p => upd result (p.2 * w + p.1) (toByte (sharpenSumAt grayscale w p.1 p.2 kernel)))
    grayscale

/-! ## Adaptive contrast (`applyAdaptiveContrast` and helpers) -/

/-- Running statistics of `calculateBlockStats` (lines 105–125). -/
structure BlockStats where
  sum : Nat
  min : Nat
  max : Nat
deriving DecidableEq

/-- Pixels of one block, row-major: `y` outer `0 .. blockHeight - 1`, `x`
inner `0 .. blockWidth - 1`, as the source loops. -/
def blockPixels (blockWidth blockHeight : Nat) : List (Nat × Nat) :=
  (List.range blockHeight).flatMap fun y =>
    (List.range blockWidth).map fun x => (x, y)

/-- Embedding of `calculateBlockStats`: fold the block's values into
`sum`/`min`/`max`, starting from `sum = 0, min = 255, max = 0`. -/
def calculateBlockStats (grayscale : Img) (w bx yb blockWidth blockHeight : Nat) :
    BlockStats :=
  (blockPixels blockWidth blockHeight).foldl
    (fun st p =>
      let value := grayscale ((yb + p.2) * w + (bx + p.1))
      { sum := st.sum + value, min := Nat.min st.min value, max := Nat.max st.max value })
    { sum := 0, min := 255, max := 0 }

/-- Embedding of `enhanceBlockContrast` (lines 155–169): remap every pixel of
the block as `clamp(mean + scale * (value - mean))`, values read from the
original grayscale buffer, writes going to the result buffer. -/
def enhanceBlockContrast (grayscale result : Img) (w bx yb blockWidth blockHeight : Nat)
    (mean scale : ℚ) : Img :=
  (blockPixels blockWidth blockHeight).foldl
    (fun acc p =>
      let idx := (yb + p.2) * w + (bx + p.1)
      upd acc idx (toByte (mean + scale * ((grayscale idx : ℚ) - mean))))
    result

/-- Top-left corners of the blocks, row-major with stride `blockSize`:
`yb` outer over `0, bs, 2*bs, … < h`, `bx` inner over `0, bs, … < w`. -/
def blockCorners (w h bs : Nat) : List (Nat × Nat) :=
  (List.range' 0 ((h + bs - 1) / bs) bs).flatMap fun yb =>
    (List.range' 0 ((w + bs - 1) / bs) bs).map fun bx => (bx, yb)

/-- Embedding of `applyAdaptiveContrast` (lines 171–220): per block compute
the stats, the mean, the contrast ratio `(max - min) / 255` and the scale
`Math.min(contrastLimit, 1 / contrast)` (with the JavaScript
division-by-zero behaviour spelled out in `jsScale`), then remap the block. -/
def applyAdaptiveContrast (grayscale : Img) (w h bs : Nat) (maxContrast : ℚ)
    (isDetection : Bool) : Img :=
  let contrastLimit := if isDetection then 1.5 else maxContrast
  (blockCorners w h bs).foldl
    (fun result p =>
      let bx := p.1
      let yb := p.2
      let blockWidth := Nat.min bs (w - bx)
      let blockHeight := Nat.min bs (h - yb)
      let st := calculateBlockStats grayscale w bx yb blockWidth blockHeight
      let mean : ℚ := (st.sum : ℚ) / ((blockWidth * blockHeight : Nat) : ℚ)
      let contrast : ℚ := ((st.max : ℚ) - (st.min : ℚ)) / 255
      let scale := jsScale contrastLimit contrast
      enhanceBlockContrast grayscale result w bx yb blockWidth blockHeight mean scale)
    grayscale

/-! ## Enhanced grayscale reapplication (`applyEnhancedGrayscale`) -/

/-- The divisor of the per-pixel luminance ratio: the source writes
`enhanced / (original || 1)` where `original` is the mean of the three
colour channels, so an exactly-zero mean is replaced by 1 and every other
mean — including means strictly between 0 and 1 — is used as is. -/
def egDivisor (r g b : Nat) : ℚ := jsOr (((r : ℚ) + g + b) / 3) 1

/-- One iteration of the `applyEnhancedGrayscale` loop at quad start `i`:
compute the ratio from the (not yet overwritten) channel values, then store
each channel scaled by the ratio, clamped. -/
def egStep (grayscale : Img) (data : Img) (i : Nat) : Img :=
  let divisor := egDivisor (data i) (data (i + 1)) (data (i + 2))
  let ratio : ℚ := (grayscale (i / 4) : ℚ) / divisor
  upd (upd (upd data i (toByte ((data i : ℚ) * ratio)))
        (i + 1) (toByte ((data (i + 1) : ℚ) * ratio)))
    (i + 2) (toByte ((data (i + 2) : ℚ) * ratio))

/-- Quad start indices `0, 4, 8, … < len` the loop visits. -/
def quadStarts (len : Nat) : List Nat := List.range' 0 ((len + 3) / 4) 4

/-- Embedding of `applyEnhancedGrayscale` (lines 257–269): in-place loop over
the RGBA quads of a buffer of length `len`. -/
def applyEnhancedGrayscale (data grayscale : Img) (len : Nat) : Img :=
  (quadStarts len).foldl (egStep grayscale) data

/-! ## Options, filter dispatch and `preprocessImage` -/

/-- The `task` option. -/
inductive Task where
  | classification
  | detection
deriving DecidableEq

/-- The `format` option. -/
inductive ImgFormat where
  | jpeg
  | png
  | webp
deriving DecidableEq

/-- The `provider` option's only value. -/
inductive Provider where
  | huggingface
deriving DecidableEq

/-- Caller-supplied `ProcessingOptions`: every field optional, `none`
standing for an absent key. -/
structure ProcessingOptions where
  maxSize : Option Nat := none
  minSize : Option Nat := none
  quality : Option ℚ := none
  format : Option ImgFormat := none
  task : Option Task := none
  enhanceContrast : Option Bool := none
  denoise : Option Bool := none
  sharpen : Option Bool := none
  provider : Option Provider := none

/-- Options after the `{ ...DEFAULT_OPTIONS, ...options }` merge.
`DEFAULT_OPTIONS` has no `provider` key, so `provider` stays optional. -/
structure ResolvedOptions where
  maxSize : Nat
  minSize : Nat
  quality : ℚ
  format : ImgFormat
  task : Task
  enhanceContrast : Bool
  denoise : Bool
  sharpen : Bool
  provider : Option Provider

/-- The merge with `DEFAULT_OPTIONS` (lines 21–30). -/
def mergeOptions (o : ProcessingOptions) : ResolvedOptions where
  maxSize := o.maxSize.getD 1024
  minSize := o.minSize.getD 224
  quality := o.quality.getD 0.9
  format := o.format.getD .jpeg
  task := o.task.getD .classification
  enhanceContrast := o.enhanceContrast.getD true
  denoise := o.denoise.getD true
  sharpen := o.sharpen.getD true
  provider := o.provider

/-- Embedding of `applyImageFilters` (lines 274–306) acting on the canvas
pixel data of a `w × h` image: in detection mode the function returns before
touching any pixel; in classification mode it runs the grayscale pipeline
(each stage gated by its flag) and reapplies the result to the colour data. -/
def applyImageFilters (data : Img) (w h : Nat) (options : ResolvedOptions) : Img :=
  if options.task = Task.detection then
    data
  else
    let g0 := convertToGrayscale data
    let g1 := if options.denoise then applyMedianFilter g0 w h 1 false else g0
    let g2 := if options.sharpen then applySharpeningFilter g1 w h false else g1
    let g3 := if options.enhanceContrast then applyAdaptiveContrast g2 w h 8 2 false else g2
    applyEnhancedGrayscale data g3 (4 * (w * h))

/-- The validation failure message of `preprocessImage`. -/
def minSizeErrorMessage (minSize : Nat) : String :=
  "Image dimensions must be at least " ++ toString minSize ++ "x" ++
    toString minSize ++ " pixels"

/-- The observable outcome of `preprocessImage` that the claims speak about:
output dimensions, reported aspect ratio and re-encoding parameters. -/
structure PreprocessResult where
  width : Nat
  height : Nat
  aspectRatio : ℚ
  quality : ℚ
  format : ImgFormat
deriving DecidableEq

/-- Embedding of `preprocessImage` (lines 316–399) on an image with the given
natural dimensions: merge options, validate the minimum size (before any
resize), pick the effective target max dimension, downscale proportionally
only when a dimension exceeds it, and choose the re-encoding quality and
format. Canvas drawing and data-URL encoding are external effects carrying
no numeric content. -/
def preprocessImage (naturalWidth naturalHeight : Nat) (options : ProcessingOptions) :
    Except String PreprocessResult :=
  let processOptions := mergeOptions options
  let isDetection := processOptions.task = Task.detection
  let isHuggingFace := processOptions.provider = some Provider.huggingface
  let aspectRatio : ℚ := (naturalWidth : ℚ) / (naturalHeight : ℚ)
  if naturalWidth < processOptions.minSize ∨ naturalHeight < processOptions.minSize then
    .error (minSizeErrorMessage processOptions.minSize)
  else
    let maxSize := if isHuggingFace then 800
      else if isDetection then Nat.min 640 processOptions.maxSize
      else processOptions.maxSize
    let dims : Nat × Nat :=
      if naturalWidth > maxSize ∨ naturalHeight > maxSize then
        if naturalWidth > naturalHeight then
          (maxSize, jsRoundN (((naturalHeight * maxSize : Nat) : ℚ) / (naturalWidth : ℚ)))
        else
          (jsRoundN (((naturalWidth * maxSize : Nat) : ℚ) / (naturalHeight : ℚ)), maxSize)
      else
        (naturalWidth, naturalHeight)
    let quality := if isHuggingFace then 1 else if isDetection then 1 else processOptions.quality
    let format := if isHuggingFace then ImgFormat.png else processOptions.format
    .ok { width := dims.1, height := dims.2, aspectRatio := aspectRatio,
          quality := quality, format := format }

/-! ## In-flight guard (`src/utils/ml-models.ts`) -/

/-- The busy message `detectObjects` throws. -/
def busyMessage : String := "Another recognition is in progress. Please wait."

/-- Synchronous entry of `detectObjects` (lines 131–141), the part that runs
before the first `await`: consult the module-level `isModelLoading` flag;
when it is set, throw the busy error without touching the flag (the
`finally` that clears it belongs to the `try` the throw never enters);
otherwise set the flag and proceed. Result: the flag's new value and the
error, if any. -/
def detectObjectsEnter (isModelLoading : Bool) : Bool × Option String :=
  if isModelLoading then (isModelLoading, some busyMessage) else (true, none)

/-- Synchronous entry of `classifyImage` (lines 104–129): the function never
reads nor writes `isModelLoading`, so it proceeds with the flag unchanged
and raises no busy error. -/
def classifyImageEnter (isModelLoading : Bool) : Bool × Option String :=
  (isModelLoading, none)

/-- Test buffer for the enhanced-grayscale theorems: a single pixel with
`(r, g, b) = (1, 0, 0)` and alpha 255. -/
def egTestData : Img := fun i => if i = 0 then 1 else if i = 3 then 255 else 0

/-- Test grayscale buffer: filtered luminance 3 everywhere. -/
def egTestGray : Img := fun _ => 3

/-- The effective target maximum dimension of `preprocessImage`, in the
spec's words: 800 for the huggingface provider, else `min(640, maxSize)` for
detection, else the configured `maxSize`. -/
def effectiveTargetMax (options : ProcessingOptions) : Nat :=
  if (mergeOptions options).provider = some Provider.huggingface then 800
  else if (mergeOptions options).task = Task.detection then
    Nat.min 640 (mergeOptions options).maxSize
  else (mergeOptions options).maxSize

/-! ## Helper lemmas -/

theorem upd_self (f : Img) (i v : Nat) : upd f i v i = v := if_pos rfl

theorem upd_ne (f : Img) {i : Nat} (v : Nat) {j : Nat} (h : j ≠ i) : upd f i v j = f j :=
  if_neg h

/-- Decoding a flat row-major index is unambiguous while the column is in
range. -/
theorem flatIdx_inj {w x x0 y y0 : Nat} (hx : x < w) (hx0 : x0 < w)
    (h : y * w + x = y0 * w + x0) : x = x0 ∧ y = y0 := by
  have hw : 0 < w := lt_of_le_of_lt (Nat.zero_le x) hx
  have hm : ∀ a b : Nat, b < w → (a * w + b) % w = b := by
    intro a b hb
    rw [Nat.mul_comm, Nat.mul_add_mod, Nat.mod_eq_of_lt hb]
  have hd : ∀ a b : Nat, b < w → (a * w + b) / w = a := by
    intro a b hb
    rw [Nat.mul_comm, Nat.mul_add_div hw, Nat.div_eq_of_lt hb, Nat.add_zero]
  refine ⟨?_, ?_⟩
  · have := congrArg (· % w) h
    simpa [hm _ _ hx, hm _ _ hx0] using this
  · have := congrArg (· / w) h
    simpa [hd _ _ hx, hd _ _ hx0] using this

/-- A fold whose every step leaves slot `idx` alone leaves slot `idx` alone. -/
theorem foldl_preserves {α : Type} (step : Img → α → Img) (idx : Nat) :
    ∀ (l : List α) (acc : Img), (∀ a ∈ l, ∀ f : Img, step f a idx = f idx) →
      l.foldl step acc idx = acc idx := by
  intro l
  induction l with
  | nil => intro acc _; rfl
  | cons b t ih =>
    intro acc hstep
    rw [List.foldl_cons, ih _ (fun a ha f => hstep a (List.mem_cons_of_mem _ ha) f),
      hstep b (List.mem_cons_self _ _)]

/-- A fold whose every step keeps the value `v` at slot `idx` keeps it. -/
theorem foldl_keeps {α : Type} (step : Img → α → Img) (idx v : Nat) :
    ∀ (l : List α) (acc : Img), acc idx = v →
      (∀ a ∈ l, ∀ f : Img, f idx = v → step f a idx = v) →
      l.foldl step acc idx = v := by
  intro l
  induction l with
  | nil => intro acc hacc _; exact hacc
  | cons b t ih =>
    intro acc hacc hstep
    rw [List.foldl_cons]
    exact ih _ (hstep b (List.mem_cons_self _ _) acc hacc)
      (fun a ha f hf => hstep a (List.mem_cons_of_mem _ ha) f hf)

/-- Bounds satisfied by every pixel the interior loops visit. -/
theorem mem_interiorPixels {w h fr : Nat} {p : Nat × Nat} (hp : p ∈ interiorPixels w h fr) :
    fr ≤ p.1 ∧ p.1 + fr < w ∧ fr ≤ p.2 ∧ p.2 + fr < h := by
  obtain ⟨y, hy, hx⟩ := List.mem_flatMap.1 hp
  obtain ⟨x, hxm, hpe⟩ := List.mem_map.1 hx
  subst hpe
  rw [List.mem_range'_1] at hy hxm
  simp only
  omega

/-- C7: in `applyMedianFilter` the effective radius is `filterRadius`
(forced to 1 in detection mode) and every pixel within `filterRadius` of any
edge keeps its pre-filter value exactly; in `applySharpeningFilter` every
pixel within 1 of any edge keeps its pre-filter value exactly. Only interior
pixels are ever written. -/
theorem filters_leave_border_unchanged :
    (∀ (g : Img) (w h radius : Nat) (isDetection : Bool) (x y : Nat),
      x < w → y < h →
      (x < (if isDetection then 1 else radius) ∨ w ≤ x + (if isDetection then 1 else radius) ∨
        y < (if isDetection then 1 else radius) ∨ h ≤ y + (if isDetection then 1 else radius)) →
      applyMedianFilter g w h radius isDetection (y * w + x) = g (y * w + x)) ∧
    (∀ (g : Img) (w h : Nat) (isDetection : Bool) (x y : Nat),
      x < w → y < h → (x < 1 ∨ w ≤ x + 1 ∨ y < 1 ∨ h ≤ y + 1) →
      applySharpeningFilter g w h isDetection (y * w + x) = g (y * w + x)) := by
  constructor
  · intro g w h radius isDetection x y hx hy hborder
    unfold applyMedianFilter
    apply foldl_preserves
    intro p hp f
    have hb := mem_interiorPixels hp
    apply upd_ne
    intro heq
    obtain ⟨hex, hey⟩ := flatIdx_inj hx (by omega) heq
    omega
  · intro g w h isDetection x y hx hy hborder
    unfold applySharpeningFilter
    apply foldl_preserves
    intro p hp f
    have hb := mem_interiorPixels hp
    apply upd_ne
    intro heq
    obtain ⟨hex, hey⟩ := flatIdx_inj hx (by omega) heq
    omega

/-- Witness for C7: on the 5×5 ramp image, the median filter keeps border
pixel `(0, 2)` (flat index 10) and the sharpening filter keeps border pixel
`(3, 0)` (flat index 3). -/
theorem filters_leave_border_unchanged_witness :
    applyMedianFilter (fun i => i) 5 5 1 false 10 = 10 ∧
    applySharpeningFilter (fun i => i) 5 5 false 3 = 3 :=
  ⟨filters_leave_border_unchanged.1 (fun i => i) 5 5 1 false 0 2 (by decide) (by decide)
      (Or.inl (by decide)),
    filters_leave_border_unchanged.2 (fun i => i) 5 5 false 3 0 (by decide) (by decide)
      (Or.inr (Or.inr (Or.inl (by decide))))⟩

/-- C2: `convertCoordinates` implements exactly the reference mapping
selected by the model identifier — the corner-pair mapping when the id
contains `detr` or `yolos`, the offset-subtracting origin+extent mapping for
every other id — and on the concrete corner-pair instance
`scaledWidth = 640, destWidth = 1280`, box `[100, 50, 200, 150]`, it yields
`{x: 200, y: 100, width: 200, height: 200}`. -/
theorem convertCoordinates_exact_mapping :
    (∀ (recognition : Recognition) (modelId : String) (canvas : CanvasDimensions)
        (scaling : ScalingParameters),
      (strIncludes modelId "detr" || strIncludes modelId "yolos") = true →
      convertCoordinates recognition modelId canvas scaling =
        { x := recognition.bbox.1 * (canvas.width / scaling.scaledWidth)
          y := recognition.bbox.2.1 * (canvas.height / scaling.scaledHeight)
          width := (recognition.bbox.2.2.1 - recognition.bbox.1) *
            (canvas.width / scaling.scaledWidth)
          height := (recognition.bbox.2.2.2 - recognition.bbox.2.1) *
            (canvas.height / scaling.scaledHeight) }) ∧
    (∀ (recognition : Recognition) (modelId : String) (canvas : CanvasDimensions)
        (scaling : ScalingParameters),
      (strIncludes modelId "detr" || strIncludes modelId "yolos") = false →
      convertCoordinates recognition modelId canvas scaling =
        { x := (recognition.bbox.1 - scaling.offsetX) * (canvas.width / scaling.scaledWidth)
          y := (recognition.bbox.2.1 - scaling.offsetY) * (canvas.height / scaling.scaledHeight)
          width := recognition.bbox.2.2.1 * (canvas.width / scaling.scaledWidth)
          height := recognition.bbox.2.2.2 * (canvas.height / scaling.scaledHeight) }) ∧
    convertCoordinates ⟨(100, 50, 200, 150)⟩ "facebook/detr-resnet-50" ⟨1280, 1280⟩
        ⟨640, 640, 0, 0⟩ = ⟨200, 100, 200, 200⟩ := by
  refine ⟨?_, ?_, ?_⟩
  · intro recognition modelId canvas scaling hmodel
    simp [convertCoordinates, hmodel]
  · intro recognition modelId canvas scaling hmodel
    simp [convertCoordinates, hmodel]
  · have h : (strIncludes "facebook/detr-resnet-50" "detr" ||
        strIncludes "facebook/detr-resnet-50" "yolos") = true := by decide
    simp only [convertCoordinates, h, if_true]
    norm_num

/-- Witness for C2: the corner-pair mapping at a `yolos` id and the
origin+extent mapping at the `coco-ssd` id, both at concrete inputs. -/
theorem convertCoordinates_exact_mapping_witness :
    convertCoordinates ⟨(2, 3, 10, 8)⟩ "yolos-small" ⟨100, 50⟩ ⟨50, 25, 0, 0⟩ =
      ⟨4, 6, 16, 10⟩ ∧
    convertCoordinates ⟨(7, 8, 30, 40)⟩ "coco-ssd" ⟨100, 50⟩ ⟨50, 25, 5, 4⟩ =
      ⟨4, 8, 60, 80⟩ :=
  ⟨(convertCoordinates_exact_mapping.1 ⟨(2, 3, 10, 8)⟩ "yolos-small" ⟨100, 50⟩
      ⟨50, 25, 0, 0⟩ (by decide)).trans (by norm_num),
    (convertCoordinates_exact_mapping.2.1 ⟨(7, 8, 30, 40)⟩ "coco-ssd" ⟨100, 50⟩
      ⟨50, 25, 5, 4⟩ (by decide)).trans (by norm_num)⟩

/-- Counterexample for C1: `convertCoordinates` performs no clamp. For the
corner-pair model `facebook/detr-resnet-50` with destination 1280×1280,
scaled size 640×640 and box `[600, 0, 700, 100]`, the mapped box has
`x = 1200` and `width = 200`, so `x + width = 1400` extends 120 pixels past
the right edge of the canvas, contradicting the claimed clamp
`width ≤ destWidth - x`. -/
theorem convertCoordinates_not_clamped_cex :
    (convertCoordinates ⟨(600, 0, 700, 100)⟩ "facebook/detr-resnet-50" ⟨1280, 1280⟩
        ⟨640, 640, 0, 0⟩).x +
      (convertCoordinates ⟨(600, 0, 700, 100)⟩ "facebook/detr-resnet-50" ⟨1280, 1280⟩
        ⟨640, 640, 0, 0⟩).width > 1280 := by
  have h : (strIncludes "facebook/detr-resnet-50" "detr" ||
      strIncludes "facebook/detr-resnet-50" "yolos") = true := by decide
  simp only [convertCoordinates, h, if_true]
  norm_num

/-- C1 (amended): `convertCoordinates` applies no post-mapping clamp, so the
claimed containment holds only under an in-bounds precondition on the input
box: for the corner-pair family a box with `0 ≤ xmin ≤ xmax ≤ scaledWidth`
and `0 ≤ ymin ≤ ymax ≤ scaledHeight`, and for the origin+extent family a
box whose offset-corrected origin is non-negative and whose origin plus
extent lies within the scaled surface, maps to `x ≥ 0`, `y ≥ 0`,
`x + width ≤ destWidth`, `y + height ≤ destHeight` (positive scaled sizes,
non-negative destination sizes). -/
theorem convertCoordinates_inside_for_inbounds_input :
    (∀ (recognition : Recognition) (modelId : String) (canvas : CanvasDimensions)
        (scaling : ScalingParameters),
      (strIncludes modelId "detr" || strIncludes modelId "yolos") = true →
      0 < scaling.scaledWidth → 0 < scaling.scaledHeight →
      0 ≤ canvas.width → 0 ≤ canvas.height →
      0 ≤ recognition.bbox.1 → recognition.bbox.1 ≤ recognition.bbox.2.2.1 →
      recognition.bbox.2.2.1 ≤ scaling.scaledWidth →
      0 ≤ recognition.bbox.2.1 → recognition.bbox.2.1 ≤ recognition.bbox.2.2.2 →
      recognition.bbox.2.2.2 ≤ scaling.scaledHeight →
      0 ≤ (convertCoordinates recognition modelId canvas scaling).x ∧
      0 ≤ (convertCoordinates recognition modelId canvas scaling).y ∧
      (convertCoordinates recognition modelId canvas scaling).x +
        (convertCoordinates recognition modelId canvas scaling).width ≤ canvas.width ∧
      (convertCoordinates recognition modelId canvas scaling).y +
        (convertCoordinates recognition modelId canvas scaling).height ≤ canvas.height) ∧
    (∀ (recognition : Recognition) (modelId : String) (canvas : CanvasDimensions)
        (scaling : ScalingParameters),
      (strIncludes modelId "detr" || strIncludes modelId "yolos") = false →
      0 < scaling.scaledWidth → 0 < scaling.scaledHeight →
      0 ≤ canvas.width → 0 ≤ canvas.height →
      0 ≤ recognition.bbox.1 - scaling.offsetX →
      recognition.bbox.1 - scaling.offsetX + recognition.bbox.2.2.1 ≤ scaling.scaledWidth →
      0 ≤ recognition.bbox.2.1 - scaling.offsetY →
      recognition.bbox.2.1 - scaling.offsetY + recognition.bbox.2.2.2 ≤ scaling.scaledHeight →
      0 ≤ (convertCoordinates recognition modelId canvas scaling).x ∧
      0 ≤ (convertCoordinates recognition modelId canvas scaling).y ∧
      (convertCoordinates recognition modelId canvas scaling).x +
        (convertCoordinates recognition modelId canvas scaling).width ≤ canvas.width ∧
      (convertCoordinates recognition modelId canvas scaling).y +
        (convertCoordinates recognition modelId canvas scaling).height ≤ canvas.height) := by
  constructor
  · intro recognition modelId canvas scaling hmodel hsW hsH hcw hch hb1 hb13 hb3W hb2 hb24 hb4H
    have hsx : 0 ≤ canvas.width / scaling.scaledWidth := div_nonneg hcw (le_of_lt hsW)
    have hsy : 0 ≤ canvas.height / scaling.scaledHeight := div_nonneg hch (le_of_lt hsH)
    have hWx : scaling.scaledWidth * (canvas.width / scaling.scaledWidth) = canvas.width := by
      field_simp
    have hWy : scaling.scaledHeight * (canvas.height / scaling.scaledHeight) =
        canvas.height := by
      field_simp
    simp only [convertCoordinates, hmodel, if_true]
    refine ⟨mul_nonneg hb1 hsx, mul_nonneg hb2 hsy, ?_, ?_⟩
    · have key : recognition.bbox.1 * (canvas.width / scaling.scaledWidth) +
          (recognition.bbox.2.2.1 - recognition.bbox.1) *
            (canvas.width / scaling.scaledWidth) =
          recognition.bbox.2.2.1 * (canvas.width / scaling.scaledWidth) := by ring
      rw [key]
      have h2 := mul_le_mul_of_nonneg_right hb3W hsx
      linarith
    · have key : recognition.bbox.2.1 * (canvas.height / scaling.scaledHeight) +
          (recognition.bbox.2.2.2 - recognition.bbox.2.1) *
            (canvas.height / scaling.scaledHeight) =
          recognition.bbox.2.2.2 * (canvas.height / scaling.scaledHeight) := by ring
      rw [key]
      have h2 := mul_le_mul_of_nonneg_right hb4H hsy
      linarith
  · intro recognition modelId canvas scaling hmodel hsW hsH hcw hch hx0 hxw hy0 hyh
    have hsx : 0 ≤ canvas.width / scaling.scaledWidth := div_nonneg hcw (le_of_lt hsW)
    have hsy : 0 ≤ canvas.height / scaling.scaledHeight := div_nonneg hch (le_of_lt hsH)
    have hWx : scaling.scaledWidth * (canvas.width / scaling.scaledWidth) = canvas.width := by
      field_simp
    have hWy : scaling.scaledHeight * (canvas.height / scaling.scaledHeight) =
        canvas.height := by
      field_simp
    simp only [convertCoordinates, hmodel, if_false, Bool.false_eq_true]
    refine ⟨mul_nonneg hx0 hsx, mul_nonneg hy0 hsy, ?_, ?_⟩
    · have key : (recognition.bbox.1 - scaling.offsetX) *
          (canvas.width / scaling.scaledWidth) +
          recognition.bbox.2.2.1 * (canvas.width / scaling.scaledWidth) =
          (recognition.bbox.1 - scaling.offsetX + recognition.bbox.2.2.1) *
            (canvas.width / scaling.scaledWidth) := by ring
      rw [key]
      have h2 := mul_le_mul_of_nonneg_right hxw hsx
      linarith
    · have key : (recognition.bbox.2.1 - scaling.offsetY) *
          (canvas.height / scaling.scaledHeight) +
          recognition.bbox.2.2.2 * (canvas.height / scaling.scaledHeight) =
          (recognition.bbox.2.1 - scaling.offsetY + recognition.bbox.2.2.2) *
            (canvas.height / scaling.scaledHeight) := by ring
      rw [key]
      have h2 := mul_le_mul_of_nonneg_right hyh hsy
      linarith

/-- Witness for C1 (amended): concrete in-bounds boxes for both model
families map inside the destination surface. -/
theorem convertCoordinates_inside_for_inbounds_input_witness :
    (0 ≤ (convertCoordinates ⟨(100, 50, 200, 150)⟩ "detr-x" ⟨1280, 1280⟩
        ⟨640, 640, 0, 0⟩).x ∧
      0 ≤ (convertCoordinates ⟨(100, 50, 200, 150)⟩ "detr-x" ⟨1280, 1280⟩
        ⟨640, 640, 0, 0⟩).y ∧
      (convertCoordinates ⟨(100, 50, 200, 150)⟩ "detr-x" ⟨1280, 1280⟩
          ⟨640, 640, 0, 0⟩).x +
        (convertCoordinates ⟨(100, 50, 200, 150)⟩ "detr-x" ⟨1280, 1280⟩
          ⟨640, 640, 0, 0⟩).width ≤ (1280 : ℚ) ∧
      (convertCoordinates ⟨(100, 50, 200, 150)⟩ "detr-x" ⟨1280, 1280⟩
          ⟨640, 640, 0, 0⟩).y +
        (convertCoordinates ⟨(100, 50, 200, 150)⟩ "detr-x" ⟨1280, 1280⟩
          ⟨640, 640, 0, 0⟩).height ≤ (1280 : ℚ)) ∧
    (0 ≤ (convertCoordinates ⟨(20, 30, 100, 40)⟩ "coco-ssd" ⟨1200, 1200⟩
        ⟨600, 600, 20, 0⟩).x ∧
      0 ≤ (convertCoordinates ⟨(20, 30, 100, 40)⟩ "coco-ssd" ⟨1200, 1200⟩
        ⟨600, 600, 20, 0⟩).y ∧
      (convertCoordinates ⟨(20, 30, 100, 40)⟩ "coco-ssd" ⟨1200, 1200⟩
          ⟨600, 600, 20, 0⟩).x +
        (convertCoordinates ⟨(20, 30, 100, 40)⟩ "coco-ssd" ⟨1200, 1200⟩
          ⟨600, 600, 20, 0⟩).width ≤ (1200 : ℚ) ∧
      (convertCoordinates ⟨(20, 30, 100, 40)⟩ "coco-ssd" ⟨1200, 1200⟩
          ⟨600, 600, 20, 0⟩).y +
        (convertCoordinates ⟨(20, 30, 100, 40)⟩ "coco-ssd" ⟨1200, 1200⟩
          ⟨600, 600, 20, 0⟩).height ≤ (1200 : ℚ)) :=
  ⟨convertCoordinates_inside_for_inbounds_input.1 ⟨(100, 50, 200, 150)⟩ "detr-x"
      ⟨1280, 1280⟩ ⟨640, 640, 0, 0⟩ (by decide) (by norm_num) (by norm_num) (by norm_num)
      (by norm_num) (by norm_num) (by norm_num) (by norm_num) (by norm_num) (by norm_num)
      (by norm_num),
    convertCoordinates_inside_for_inbounds_input.2 ⟨(20, 30, 100, 40)⟩ "coco-ssd"
      ⟨1200, 1200⟩ ⟨600, 600, 20, 0⟩ (by decide) (by norm_num) (by norm_num) (by norm_num)
      (by norm_num) (by norm_num) (by norm_num) (by norm_num) (by norm_num)⟩

/-- C3: `preprocessImage` fails with the minimum-dimension validation error
exactly when the natural width or natural height is strictly below
`minSize` (default 224); the check precedes the resize (in the embedding the
error branch is taken before the resize arithmetic is reached), and for an
image with both dimensions at least `minSize` no error is possible. -/
theorem preprocessImage_minSize_validation :
    ∀ (w h : Nat) (options : ProcessingOptions),
      ((∃ e, preprocessImage w h options = .error e) ↔
        w < (mergeOptions options).minSize ∨ h < (mergeOptions options).minSize) ∧
      (w < (mergeOptions options).minSize ∨ h < (mergeOptions options).minSize →
        preprocessImage w h options =
          .error (minSizeErrorMessage (mergeOptions options).minSize)) := by
  intro w h options
  by_cases hc : w < (mergeOptions options).minSize ∨ h < (mergeOptions options).minSize
  · have he : preprocessImage w h options =
        .error (minSizeErrorMessage (mergeOptions options).minSize) := by
      simp [preprocessImage, hc]
    exact ⟨⟨fun _ => hc, fun _ => ⟨_, he⟩⟩, fun _ => he⟩
  · refine ⟨⟨?_, fun hcc => absurd hcc hc⟩, fun hcc => absurd hcc hc⟩
    rintro ⟨e, hee⟩
    simp [preprocessImage, hc] at hee

/-- C4: with `task = detection`, `applyImageFilters` is the identity on the
pixel data, whatever the `denoise`/`sharpen`/`enhanceContrast` flags say:
the function returns before reading or writing a single pixel. -/
theorem applyImageFilters_detection_noop :
    ∀ (data : Img) (w h : Nat) (options : ResolvedOptions),
      options.task = Task.detection → applyImageFilters data w h options = data := by
  intro data w h options htask
  simp [applyImageFilters, htask]

/-- Witness for C4: a concrete detection-mode option record (all filter
flags on) leaves a concrete buffer untouched. -/
theorem applyImageFilters_detection_noop_witness :
    applyImageFilters (fun i => i) 4 4
      { maxSize := 1024, minSize := 224, quality := 0.9, format := ImgFormat.jpeg,
        task := Task.detection, enhanceContrast := true, denoise := true,
        sharpen := true, provider := none } = (fun i => i) :=
  applyImageFilters_detection_noop (fun i => i) 4 4 _ rfl

/-- C5: `preprocessImage` never upscales: with both natural dimensions at
most the effective target max (`effectiveTargetMax`), the output dimensions
equal the input ones; otherwise the longer side becomes exactly the target
and the other is `Math.round`ed from the proportional value. -/
theorem preprocessImage_downscale_only :
    ∀ (w h : Nat) (options : ProcessingOptions) (r : PreprocessResult),
      preprocessImage w h options = .ok r →
      ((w ≤ effectiveTargetMax options ∧ h ≤ effectiveTargetMax options →
          r.width = w ∧ r.height = h) ∧
       ((effectiveTargetMax options < w ∨ effectiveTargetMax options < h) →
         (h < w → r.width = effectiveTargetMax options ∧
            r.height = jsRoundN (((h * effectiveTargetMax options : Nat) : ℚ) / (w : ℚ))) ∧
         (¬ h < w →
            r.width = jsRoundN (((w * effectiveTargetMax options : Nat) : ℚ) / (h : ℚ)) ∧
            r.height = effectiveTargetMax options))) := by
  intro w h options r hok
  simp only [preprocessImage] at hok
  split at hok
  · exact Except.noConfusion hok
  · rw [Except.ok.injEq] at hok
    subst hok
    have ht : effectiveTargetMax options =
        (if (mergeOptions options).provider = some Provider.huggingface then 800
         else if (mergeOptions options).task = Task.detection then
           Nat.min 640 (mergeOptions options).maxSize
         else (mergeOptions options).maxSize) := rfl
    constructor
    · intro ⟨hw, hh⟩
      rw [ht] at hw hh
      simp only
      rw [if_neg (by omega)]
      exact ⟨rfl, rfl⟩
    · intro hbig
      rw [ht] at hbig
      constructor
      · intro hwh
        simp only
        rw [if_pos (by omega), if_pos hwh]
        exact ⟨rfl, rfl⟩
      · intro hwh
        simp only
        rw [if_pos (by omega), if_neg hwh]
        exact ⟨rfl, rfl⟩

/-- Witness for C5: a 2000×1000 image under default options (target 1024)
is resized to 1024×512 — the longer side hits the target exactly and the
shorter side is the rounded proportional value — and the downscale-only
branch holds vacuously. -/
theorem preprocessImage_downscale_only_witness :
    ((2000 ≤ effectiveTargetMax {} ∧ 1000 ≤ effectiveTargetMax {} →
        (1024 : Nat) = 2000 ∧ (512 : Nat) = 1000) ∧
     ((effectiveTargetMax {} < 2000 ∨ effectiveTargetMax {} < 1000) →
       (1000 < 2000 → (1024 : Nat) = effectiveTargetMax {} ∧
          (512 : Nat) = jsRoundN (((1000 * effectiveTargetMax {} : Nat) : ℚ) / (2000 : ℚ))) ∧
       (¬ 1000 < 2000 →
          (1024 : Nat) = jsRoundN (((2000 * effectiveTargetMax {} : Nat) : ℚ) / (1000 : ℚ)) ∧
          (512 : Nat) = effectiveTargetMax {}))) :=
  preprocessImage_downscale_only 2000 1000 {} ⟨1024, 512, 2, 0.9, ImgFormat.jpeg⟩ (by
    simp [preprocessImage, mergeOptions]
    norm_num [jsRoundN, jsRound]
    decide)

/-- Counterexample for C6: with `task = detection` and no huggingface
provider, a 300×300 image is re-encoded with quality 1.0 but in the
configured default JPEG format, not PNG: the claimed "PNG whenever
detection" fails (the source picks PNG only for the huggingface
provider). -/
theorem preprocessImage_detection_format_cex :
    (preprocessImage 300 300 { task := some Task.detection }).toOption.map
      (fun r => (r.quality, r.format)) = some (1, ImgFormat.jpeg) := by
  simp [preprocessImage, mergeOptions, Except.toOption]

/-- C6 (amended): `preprocessImage` re-encodes with quality 1.0 whenever the
provider is huggingface or the task is detection, and with the configured
quality (default 0.9) otherwise; the format is PNG exactly when the
provider is huggingface, and the configured format (default JPEG)
otherwise — in particular a non-huggingface detection run keeps the
configured format. -/
theorem preprocessImage_encoding_params :
    ∀ (w h : Nat) (options : ProcessingOptions) (r : PreprocessResult),
      preprocessImage w h options = .ok r →
      r.quality = (if (mergeOptions options).provider = some Provider.huggingface ∨
          (mergeOptions options).task = Task.detection then 1
        else (mergeOptions options).quality) ∧
      r.format = (if (mergeOptions options).provider = some Provider.huggingface
        then ImgFormat.png else (mergeOptions options).format) := by
  intro w h options r hok
  simp only [preprocessImage] at hok
  split at hok
  · exact Except.noConfusion hok
  · rw [Except.ok.injEq] at hok
    subst hok
    by_cases hHF : (mergeOptions options).provider = some Provider.huggingface
    · simp [hHF]
    · by_cases hDet : (mergeOptions options).task = Task.detection
      · simp [hHF, hDet]
      · simp [hHF, hDet]

/-- Witness for C6 (amended): a huggingface-provider run re-encodes at
quality 1.0 in PNG. -/
theorem preprocessImage_encoding_params_witness :
    (1 : ℚ) = (if (mergeOptions { provider := some Provider.huggingface }).provider =
          some Provider.huggingface ∨
        (mergeOptions { provider := some Provider.huggingface }).task = Task.detection
      then 1 else (mergeOptions { provider := some Provider.huggingface }).quality) ∧
    ImgFormat.png = (if (mergeOptions { provider := some Provider.huggingface }).provider =
        some Provider.huggingface then ImgFormat.png
      else (mergeOptions { provider := some Provider.huggingface }).format) :=
  preprocessImage_encoding_params 640 480 { provider := some Provider.huggingface }
    ⟨640, 480, 4/3, 1, ImgFormat.png⟩ (by
      simp [preprocessImage, mergeOptions]
      norm_num)

/-- Counterexample for C9: the claim's general sentence — a second inference
request while the in-flight flag is set fails with the busy error — is false
for `classifyImage`, one of its cited sources: `classifyImage` never reads
`isModelLoading`, so with the flag set it proceeds (no busy error) and
leaves the flag as it was. -/
theorem classifyImage_ignores_busy_flag_cex :
    classifyImageEnter true = (true, none) := rfl

/-- C9 (amended): `detectObjects` alone enforces the in-flight guard: a
first call from the idle state sets the flag; a second `detectObjects` call
while the flag is set fails immediately with the busy error
"Another recognition is in progress. Please wait." and leaves the flag set
(the throw precedes the `try`, so the clearing `finally` does not run);
`classifyImage` performs no busy check and neither fails nor touches the
flag. -/
theorem detectObjects_busy_guard :
    detectObjectsEnter false = (true, none) ∧
    detectObjectsEnter true = (true, some busyMessage) ∧
    classifyImageEnter true = (true, none) :=
  ⟨rfl, rfl, rfl⟩

/-! ## Stored-byte lemmas -/

theorem clamp255_le (q : ℚ) : clamp255 q ≤ 255 :=
  max_le (by norm_num) (min_le_left 255 q)

theorem clamp255_nonneg (q : ℚ) : 0 ≤ clamp255 q := le_max_left 0 (min 255 q)

theorem roundHalfEven_le_255 {q : ℚ} (hq : q ≤ 255) : roundHalfEven q ≤ 255 := by
  unfold roundHalfEven
  have hfl : ⌊q⌋ ≤ 255 := by
    have h := Int.floor_le_floor hq
    simpa using h
  split
  · exact hfl
  · rename_i h1
    have hup : (⌊q⌋ : ℚ) + 1/2 ≤ q := by
      have := Int.floor_le q
      push_neg at h1
      linarith
    have hlt : (⌊q⌋ : ℚ) < 255 := by linarith
    have hlt' : ⌊q⌋ < 255 := by exact_mod_cast hlt
    split
    · omega
    · split
      · omega
      · omega

theorem toByte_le_255 (q : ℚ) : toByte q ≤ 255 := by
  unfold toByte
  have h := roundHalfEven_le_255 (clamp255_le q)
  have := Int.toNat_le_toNat h
  simpa using this

theorem toByte_natCast {v : Nat} (hv : v ≤ 255) : toByte (v : ℚ) = v := by
  unfold toByte clamp255
  have h1 : min (255 : ℚ) (v : ℚ) = (v : ℚ) := min_eq_right (by exact_mod_cast hv)
  have h2 : max (0 : ℚ) (v : ℚ) = (v : ℚ) := max_eq_right (by positivity)
  rw [h1, h2]
  unfold roundHalfEven
  rw [Int.floor_natCast]
  rw [if_pos (by push_cast; norm_num)]
  simp

/-! ## Value of `applyEnhancedGrayscale` at one quad -/

/-- The three slots `egStep` writes, read off the upd chain. -/
theorem egStep_at (grayscale f : Img) (i : Nat) :
    egStep grayscale f i i =
      toByte ((f i : ℚ) *
        ((grayscale (i / 4) : ℚ) / egDivisor (f i) (f (i + 1)) (f (i + 2)))) ∧
    egStep grayscale f i (i + 1) =
      toByte ((f (i + 1) : ℚ) *
        ((grayscale (i / 4) : ℚ) / egDivisor (f i) (f (i + 1)) (f (i + 2)))) ∧
    egStep grayscale f i (i + 2) =
      toByte ((f (i + 2) : ℚ) *
        ((grayscale (i / 4) : ℚ) / egDivisor (f i) (f (i + 1)) (f (i + 2)))) := by
  unfold egStep
  refine ⟨?_, ?_, ?_⟩
  · rw [upd_ne _ _ (by omega), upd_ne _ _ (by omega), upd_self]
  · rw [upd_ne _ _ (by omega), upd_self]
  · rw [upd_self]

/-- A step at a quad not containing `idx` leaves `idx` alone. -/
theorem egStep_preserves (grayscale f : Img) {i idx : Nat}
    (h0 : idx ≠ i) (h1 : idx ≠ i + 1) (h2 : idx ≠ i + 2) :
    egStep grayscale f i idx = f idx := by
  unfold egStep
  rw [upd_ne _ _ h2, upd_ne _ _ h1, upd_ne _ _ h0]

/-- Members of `quadStarts` are the in-range multiples of 4. -/
theorem mem_quadStarts {len i : Nat} (h : i ∈ quadStarts len) :
    ∃ k, i = 4 * k ∧ 4 * k < len := by
  unfold quadStarts at h
  rw [List.mem_range'] at h
  obtain ⟨m, hm, rfl⟩ := h
  have hd := Nat.div_mul_le_self (len + 3) 4
  have hmul : (m + 1) * 4 ≤ (len + 3) / 4 * 4 := Nat.mul_le_mul_right 4 hm
  exact ⟨m, by omega, by omega⟩

/-- Splitting the quad list at the quad of `p`. -/
theorem quadStarts_split {len p : Nat} (h : 4 * p < len) :
    quadStarts len = List.range' 0 p 4 ++
      4 * p :: List.range' (4 * p + 4) ((len + 3) / 4 - p - 1) 4 := by
  unfold quadStarts
  have hp : p < (len + 3) / 4 := by
    have : p + 1 ≤ (len + 3) / 4 := (Nat.le_div_iff_mul_le (by norm_num)).2 (by omega)
    omega
  have happ := List.range'_append 0 p ((len + 3) / 4 - p) 4
  rw [show (len + 3) / 4 - p + p = (len + 3) / 4 from by omega] at happ
  have hq : (len + 3) / 4 - p - 1 + 1 = (len + 3) / 4 - p := by omega
  rw [← happ, Nat.zero_add, ← hq, List.range'_succ, Nat.add_sub_cancel]

/-- The value `applyEnhancedGrayscale` leaves at each channel of quad `p` is
the value `egStep` computes from the original data: earlier quads touch only
their own (strictly smaller) slots and later quads only strictly larger
ones. -/
theorem applyEnhancedGrayscale_at_quad (data grayscale : Img) {len p : Nat}
    (h : 4 * p < len) (c : Nat) (hc : c < 3) :
    applyEnhancedGrayscale data grayscale len (4 * p + c) =
      egStep grayscale data (4 * p) (4 * p + c) := by
  unfold applyEnhancedGrayscale
  rw [quadStarts_split h, List.foldl_append, List.foldl_cons]
  have hpre : ∀ c', c' < 3 →
      (List.range' 0 p 4).foldl (egStep grayscale) data (4 * p + c') =
        data (4 * p + c') := by
    intro c' hc'
    apply foldl_preserves
    intro a ha f
    rw [List.mem_range'] at ha
    obtain ⟨m, hm, rfl⟩ := ha
    exact egStep_preserves grayscale f (by omega) (by omega) (by omega)
  have hstep : egStep grayscale ((List.range' 0 p 4).foldl (egStep grayscale) data)
      (4 * p) (4 * p + c) = egStep grayscale data (4 * p) (4 * p + c) := by
    have e0 := hpre 0 (by omega)
    have e1 := hpre 1 (by omega)
    have e2 := hpre 2 (by omega)
    rw [Nat.add_zero] at e0
    interval_cases c
    · rw [Nat.add_zero]
      rw [(egStep_at grayscale _ (4 * p)).1, (egStep_at grayscale data (4 * p)).1,
        e0, e1, e2]
    · rw [(egStep_at grayscale _ (4 * p)).2.1, (egStep_at grayscale data (4 * p)).2.1,
        e0, e1, e2]
    · rw [(egStep_at grayscale _ (4 * p)).2.2, (egStep_at grayscale data (4 * p)).2.2,
        e0, e1, e2]
  rw [foldl_preserves _ _ _ _ ?_, hstep]
  intro a ha f
  rw [List.mem_range'] at ha
  obtain ⟨m, hm, rfl⟩ := ha
  exact egStep_preserves grayscale f (by omega) (by omega) (by omega)

/-- Counterexample for C8: the divisor of the luminance ratio is not floored
at 1. For the pixel `(r, g, b) = (1, 0, 0)` the per-pixel average is 1/3,
which is truthy, so the source divides by 1/3 (< 1): with filtered
luminance 3 the red channel becomes `round(1 * (3 / (1/3))) = 9`, whereas a
divisor floored at 1 would give 3. -/
theorem applyEnhancedGrayscale_divisor_below_one_cex :
    egDivisor 1 0 0 < 1 ∧
    applyEnhancedGrayscale (fun i => if i = 0 then 1 else if i = 3 then 255 else 0)
      (fun _ => 3) 4 0 = 9 := by
  constructor
  · simp only [egDivisor, jsOr]
    norm_num
  · simp only [applyEnhancedGrayscale, quadStarts]
    norm_num [List.range']
    simp only [List.foldl_cons, List.foldl_nil, egStep, egDivisor, jsOr, upd, toByte,
      clamp255, roundHalfEven]
    norm_num
    decide

/-- C8 (amended): in `applyEnhancedGrayscale` the per-pixel divisor is the
average of the three colour channels when that average is nonzero and 1
when it is exactly zero — so it is always positive (the division is safe)
but can be smaller than 1 — and each colour channel is stored as the
clamped-to-`[0,255]` rounded product of its old value with the ratio
`enhanced / divisor`. -/
theorem applyEnhancedGrayscale_divisor_guard :
    ∀ (data grayscale : Img) (len p : Nat), 4 * p < len →
      egDivisor (data (4 * p)) (data (4 * p + 1)) (data (4 * p + 2)) =
        (if ((data (4 * p) : ℚ) + (data (4 * p + 1) : ℚ) + (data (4 * p + 2) : ℚ)) / 3 = 0
          then 1
          else ((data (4 * p) : ℚ) + (data (4 * p + 1) : ℚ) + (data (4 * p + 2) : ℚ)) / 3) ∧
      0 < egDivisor (data (4 * p)) (data (4 * p + 1)) (data (4 * p + 2)) ∧
      applyEnhancedGrayscale data grayscale len (4 * p) =
        toByte ((data (4 * p) : ℚ) * ((grayscale p : ℚ) /
          egDivisor (data (4 * p)) (data (4 * p + 1)) (data (4 * p + 2)))) ∧
      applyEnhancedGrayscale data grayscale len (4 * p + 1) =
        toByte ((data (4 * p + 1) : ℚ) * ((grayscale p : ℚ) /
          egDivisor (data (4 * p)) (data (4 * p + 1)) (data (4 * p + 2)))) ∧
      applyEnhancedGrayscale data grayscale len (4 * p + 2) =
        toByte ((data (4 * p + 2) : ℚ) * ((grayscale p : ℚ) /
          egDivisor (data (4 * p)) (data (4 * p + 1)) (data (4 * p + 2)))) ∧
      applyEnhancedGrayscale data grayscale len (4 * p) ≤ 255 ∧
      applyEnhancedGrayscale data grayscale len (4 * p + 1) ≤ 255 ∧
      applyEnhancedGrayscale data grayscale len (4 * p + 2) ≤ 255 := by
  intro data grayscale len p hlen
  have hdiv4 : 4 * p / 4 = p := Nat.mul_div_cancel_left p (by norm_num)
  have h0 := applyEnhancedGrayscale_at_quad data grayscale hlen 0 (by omega)
  have h1 := applyEnhancedGrayscale_at_quad data grayscale hlen 1 (by omega)
  have h2 := applyEnhancedGrayscale_at_quad data grayscale hlen 2 (by omega)
  rw [Nat.add_zero] at h0
  rw [(egStep_at grayscale data (4 * p)).1, hdiv4] at h0
  rw [(egStep_at grayscale data (4 * p)).2.1, hdiv4] at h1
  rw [(egStep_at grayscale data (4 * p)).2.2, hdiv4] at h2
  refine ⟨rfl, ?_, h0, h1, h2, ?_, ?_, ?_⟩
  · unfold egDivisor jsOr
    split
    · norm_num
    · rename_i hne
      have hs : (0 : ℚ) ≤
          ((data (4 * p) : ℚ) + (data (4 * p + 1)) + (data (4 * p + 2))) / 3 := by
        positivity
      exact lt_of_le_of_ne hs (Ne.symm hne)
  · rw [h0]; exact toByte_le_255 _
  · rw [h1]; exact toByte_le_255 _
  · rw [h2]; exact toByte_le_255 _

/-- Witness for C8 (amended): the one-pixel buffer `(1, 0, 0)` instantiates
the per-quad description: the divisor is positive and the stored red channel
is within the byte range. -/
theorem applyEnhancedGrayscale_divisor_guard_witness :
    (0 : ℚ) < egDivisor (egTestData (4 * 0)) (egTestData (4 * 0 + 1))
      (egTestData (4 * 0 + 2)) ∧
    applyEnhancedGrayscale egTestData egTestGray 4 (4 * 0) ≤ 255 :=
  ⟨(applyEnhancedGrayscale_divisor_guard egTestData egTestGray 4 0 (by norm_num)).2.1,
    (applyEnhancedGrayscale_divisor_guard egTestData egTestGray 4 0
      (by norm_num)).2.2.2.2.2.1⟩

/-- Block corners are in-range multiples of the block size. -/
theorem mem_blockCorners {w h bs : Nat} {p : Nat × Nat} (hp : p ∈ blockCorners w h bs) :
    ∃ i j, p.1 = bs * i ∧ p.2 = bs * j ∧ i < (w + bs - 1) / bs ∧ j < (h + bs - 1) / bs := by
  obtain ⟨yb, hyb, hx⟩ := List.mem_flatMap.1 hp
  obtain ⟨bx, hbx, hpe⟩ := List.mem_map.1 hx
  subst hpe
  rw [List.mem_range'] at hyb hbx
  obtain ⟨j, hj, rfl⟩ := hyb
  obtain ⟨i, hi, rfl⟩ := hbx
  exact ⟨i, j, by omega, by omega, hi, hj⟩

/-- Block-pixel offsets are bounded by the block extent. -/
theorem mem_blockPixels {bw bh : Nat} {q : Nat × Nat} (hq : q ∈ blockPixels bw bh) :
    q.1 < bw ∧ q.2 < bh := by
  obtain ⟨y, hy, hx⟩ := List.mem_flatMap.1 hq
  obtain ⟨x, hxm, hpe⟩ := List.mem_map.1 hx
  subst hpe
  rw [List.mem_range] at hy hxm
  exact ⟨hxm, hy⟩

/-- The block loop visits `blockHeight * blockWidth` pixels. -/
theorem blockPixels_length (bw bh : Nat) : (blockPixels bw bh).length = bh * bw := by
  unfold blockPixels
  induction bh with
  | zero => simp
  | succ n ih =>
    rw [List.range_succ, List.flatMap_append]
    simp only [List.length_append, ih]
    simp [Nat.succ_mul]

/-- Folding the stats accumulator over constant values adds `v` per pixel. -/
theorem foldl_stats_sum (val : Nat × Nat → Nat) (v : Nat) :
    ∀ (l : List (Nat × Nat)) (st : BlockStats), (∀ q ∈ l, val q = v) →
      (l.foldl (fun st q =>
        ({ sum := st.sum + val q, min := Nat.min st.min (val q),
           max := Nat.max st.max (val q) } : BlockStats)) st).sum = st.sum + v * l.length := by
  intro l
  induction l with
  | nil => intro st _; simp
  | cons b t ih =>
    intro st hl
    rw [List.foldl_cons, ih _ (fun q hq => hl q (List.mem_cons_of_mem _ hq))]
    simp only [hl b (List.mem_cons_self _ _), List.length_cons]
    ring

/-- On a uniform block the luminance sum is the common value times the
pixel count. -/
theorem calculateBlockStats_sum_uniform (g : Img) (w bx yb bw bh v : Nat)
    (huni : ∀ q ∈ blockPixels bw bh, g ((yb + q.2) * w + (bx + q.1)) = v) :
    (calculateBlockStats g w bx yb bw bh).sum = v * (bh * bw) := by
  unfold calculateBlockStats
  have h := foldl_stats_sum (fun q => g ((yb + q.2) * w + (bx + q.1))) v
    (blockPixels bw bh) { sum := 0, min := 255, max := 0 } huni
  rw [blockPixels_length] at h
  simpa using h

/-- The contrast remap `clamp(mean + scale * (value - mean))` is the
identity on a byte value equal to the mean, whatever the scale. -/
theorem remap_id (M S : ℚ) (v : Nat) (hv : v ≤ 255) (hM : M = (v : ℚ)) :
    toByte (M + S * ((v : ℚ) - M)) = v := by
  rw [hM, sub_self, mul_zero, add_zero]
  exact toByte_natCast hv

/-- C10: a tile of `applyAdaptiveContrast` whose luminance values are all
equal (hence `max = min` and the contrast ratio is 0, making `1 / contrast`
a division by zero that JavaScript turns into `Infinity`, absorbed by
`Math.min`) leaves every one of its pixels numerically unchanged: each value
equals the tile mean, so the remap `mean + scale * (value - mean)` is the
identity there, and the operation is total. The hypothesis quantifies over
the tile of the pixel `(x0, y0)`: all in-image positions with the same
`x / blockSize` and `y / blockSize` hold the same byte `v`. -/
theorem applyAdaptiveContrast_uniform_tile_unchanged (g : Img) (w h bs : Nat) (maxContrast : ℚ) (isDetection : Bool)
    (x0 y0 v : Nat) (hbs : 0 < bs) (hx0 : x0 < w) (hy0 : y0 < h) (hv : v ≤ 255)
    (huni : ∀ x y, x < w → y < h → x / bs = x0 / bs → y / bs = y0 / bs →
      g (y * w + x) = v) :
    applyAdaptiveContrast g w h bs maxContrast isDetection (y0 * w + x0) =
      g (y0 * w + x0) := by
  have hval : g (y0 * w + x0) = v := huni x0 y0 hx0 hy0 rfl rfl
  rw [hval]
  unfold applyAdaptiveContrast
  refine foldl_keeps _ _ _ _ _ hval ?_
  intro a ha f hf
  obtain ⟨i, j, ha1, ha2, hi, hj⟩ := mem_blockCorners ha
  simp only [enhanceBlockContrast]
  refine foldl_keeps _ _ _ _ _ hf ?_
  intro q hq f' hf'
  obtain ⟨hq1, hq2⟩ := mem_blockPixels hq
  have hq1' : q.1 < bs ∧ q.1 < w - a.1 := lt_min_iff.1 hq1
  have hq2' : q.2 < bs ∧ q.2 < h - a.2 := lt_min_iff.1 hq2
  by_cases hidx : (a.2 + q.2) * w + (a.1 + q.1) = y0 * w + x0
  · rw [hidx, upd_self]
    obtain ⟨hcol, hrow⟩ := flatIdx_inj (by omega) hx0 hidx
    have hdivq : ∀ x1 : Nat, x1 < bs → (bs * i + x1) / bs = i := by
      intro x1 hx1
      rw [Nat.mul_add_div hbs, Nat.div_eq_of_lt hx1, Nat.add_zero]
    have hdivq2 : ∀ y1 : Nat, y1 < bs → (bs * j + y1) / bs = j := by
      intro y1 hy1
      rw [Nat.mul_add_div hbs, Nat.div_eq_of_lt hy1, Nat.add_zero]
    have hxdiv : x0 / bs = i := by rw [← hcol, ha1, hdivq q.1 hq1'.1]
    have hydiv : y0 / bs = j := by rw [← hrow, ha2, hdivq2 q.2 hq2'.1]
    have hublock : ∀ q' ∈ blockPixels (Nat.min bs (w - a.1)) (Nat.min bs (h - a.2)),
        g ((a.2 + q'.2) * w + (a.1 + q'.1)) = v := by
      intro q' hq'
      obtain ⟨h1', h2'⟩ := mem_blockPixels hq'
      have h1'' := lt_min_iff.1 h1'
      have h2'' := lt_min_iff.1 h2'
      apply huni
      · omega
      · omega
      · rw [ha1, hdivq q'.1 h1''.1, hxdiv]
      · rw [ha2, hdivq2 q'.2 h2''.1, hydiv]
    have hsum := calculateBlockStats_sum_uniform g w a.1 a.2
      (Nat.min bs (w - a.1)) (Nat.min bs (h - a.2)) v hublock
    have hbw0 : 0 < Nat.min bs (w - a.1) := lt_of_le_of_lt (Nat.zero_le _) hq1
    have hbh0 : 0 < Nat.min bs (h - a.2) := lt_of_le_of_lt (Nat.zero_le _) hq2
    have hden : ((Nat.min bs (w - a.1) * Nat.min bs (h - a.2) : Nat) : ℚ) ≠ 0 := by
      rw [Nat.cast_ne_zero]
      exact Nat.mul_ne_zero (Nat.pos_iff_ne_zero.1 hbw0) (Nat.pos_iff_ne_zero.1 hbh0)
    have hmean : (((calculateBlockStats g w a.1 a.2 (Nat.min bs (w - a.1))
          (Nat.min bs (h - a.2))).sum : Nat) : ℚ) /
        ((Nat.min bs (w - a.1) * Nat.min bs (h - a.2) : Nat) : ℚ) = (v : ℚ) := by
      rw [hsum, div_eq_iff hden]
      push_cast
      ring
    rw [hval]
    exact remap_id _ _ v hv hmean
  · rw [upd_ne _ _ (Ne.symm hidx)]
    exact hf'

/-- Witness for C10: on a constant 16×16 image (value 77) every tile is
uniform, and the pixel `(3, 3)` is unchanged by the adaptive contrast
pass. -/
theorem applyAdaptiveContrast_uniform_tile_unchanged_witness :
    applyAdaptiveContrast (fun _ => 77) 16 16 8 2 false 51 = 77 :=
  applyAdaptiveContrast_uniform_tile_unchanged (fun _ => 77) 16 16 8 2 false 3 3 77
    (by norm_num) (by norm_num) (by norm_num) (by norm_num)
    (fun x y _ _ _ _ => rfl)

end Oric
